import Mathlib

/-!
Verification development for the sonic-lingua lexical front end.

The development shallowly embeds the three source files of the repository:
src/lexer/token.rs (language detection, segmentation dispatch, the lazy
normalize/filter/dedup/hash pipeline), src/lexer/stopwords.rs (the stopword
registry), and src/query/types.rs (the language hint parser).  External
crates (lingua, unicode-segmentation, jieba, lindera) and repository data
files that are not part of the embedded sources (the stopword word lists,
the term hasher in the store module) are modelled explicitly; each such
definition carries a doc comment saying what it stands in for.
-/

namespace Sonic

/-- Model of the external lingua crate Language enum: a closed enumeration of
the 75 languages the detector supports.  Produced by the classifier or by the
hint parser, never extended at runtime. -/
inductive Language where
  | Afrikaans | Albanian | Arabic | Armenian | Azerbaijani | Basque
  | Belarusian | Bengali | Bokmal | Bosnian | Bulgarian | Catalan
  | Chinese | Croatian | Czech | Danish | Dutch | English
  | Esperanto | Estonian | Finnish | French | Ganda | Georgian
  | German | Greek | Gujarati | Hebrew | Hindi | Hungarian
  | Icelandic | Indonesian | Irish | Italian | Japanese | Kazakh
  | Korean | Latin | Latvian | Lithuanian | Macedonian | Malay
  | Maori | Marathi | Mongolian | Nynorsk | Persian | Polish
  | Portuguese | Punjabi | Romanian | Russian | Serbian | Shona
  | Slovak | Slovene | Somali | Sotho | Spanish | Swahili
  | Swedish | Tagalog | Tamil | Telugu | Thai | Tsonga
  | Tswana | Turkish | Ukrainian | Urdu | Vietnamese | Welsh
  | Xhosa | Yoruba | Zulu
  deriving DecidableEq, BEq, Repr

/-- Modelled from the spec: curated Esperanto stopword list (the data module
crate stopwords epo is not under src). -/
def STOPWORDS_EPO : List String := ["la", "kaj", "de", "en"]

/-- Modelled from the spec: curated English stopword list (the data module
crate stopwords eng is not under src).  The spec scenarios require that
"the" and "over" are English stopwords and that content words such as
"quick", "brown", "fox", "jumps", "lazy", "dog" are not. -/
def STOPWORDS_ENG : List String :=
  ["a", "an", "and", "the", "over", "this", "will", "be", "was", "as",
   "so", "of", "to", "in", "it", "is", "not", "but", "properly"]

/-- Modelled from the spec: curated Russian stopword list (data not under src). -/
def STOPWORDS_RUS : List String := ["и", "в", "не", "на"]

/-- Modelled from the spec: curated Mandarin Chinese stopword list (data not under src). -/
def STOPWORDS_CMN : List String := ["的", "了", "和"]

/-- Modelled from the spec: curated Spanish stopword list (data not under src). -/
def STOPWORDS_SPA : List String := ["el", "la", "y", "de", "que"]

/-- Modelled from the spec: curated Portuguese stopword list (data not under src). -/
def STOPWORDS_POR : List String := ["o", "a", "e", "de", "que"]

/-- Modelled from the spec: curated Italian stopword list (data not under src). -/
def STOPWORDS_ITA : List String := ["il", "la", "e", "di", "che"]

/-- Modelled from the spec: curated Bengali stopword list (data not under src). -/
def STOPWORDS_BEN : List String := ["এবং", "এই"]

/-- Modelled from the spec: curated French stopword list (data not under src).
The repository tests require "ici", "le", "vif", "par", "dessus" to be French
stopwords and "bonjour", "renard" not to be. -/
def STOPWORDS_FRA : List String :=
  ["le", "la", "les", "un", "une", "de", "par", "dessus", "vif", "ici"]

/-- Modelled from the spec: curated Ukrainian stopword list (data not under src). -/
def STOPWORDS_UKR : List String := ["і", "в", "на"]

/-- Modelled from the spec: curated Arabic stopword list (data not under src). -/
def STOPWORDS_ARA : List String := ["في", "من", "على"]

/-- Modelled from the spec: curated Hindi stopword list (data not under src). -/
def STOPWORDS_HIN : List String := ["और", "का", "के"]

/-- Modelled from the spec: curated Japanese stopword list (data not under src). -/
def STOPWORDS_JPN : List String := ["の", "に", "は", "を"]

/-- Modelled from the spec: curated Hebrew stopword list (data not under src). -/
def STOPWORDS_HEB : List String := ["של", "את", "על"]

/-- Modelled from the spec: curated Polish stopword list (data not under src). -/
def STOPWORDS_POL : List String := ["i", "w", "nie", "na"]

/-- Modelled from the spec: curated Korean stopword list (data not under src). -/
def STOPWORDS_KOR : List String := ["이", "그", "저"]

/-- Modelled from the spec: curated Danish stopword list (data not under src). -/
def STOPWORDS_DAN : List String := ["og", "i", "det", "at"]

/-- Modelled from the spec: curated Swedish stopword list (data not under src). -/
def STOPWORDS_SWE : List String := ["och", "i", "att", "det"]

/-- Modelled from the spec: curated Finnish stopword list (data not under src). -/
def STOPWORDS_FIN : List String := ["ja", "on", "ei", "se"]

/-- Modelled from the spec: curated Turkish stopword list (data not under src). -/
def STOPWORDS_TUR : List String := ["ve", "bir", "bu", "da"]

/-- Modelled from the spec: curated Catalan stopword list (data not under src).
The repository tests require "adéu" to be a Catalan stopword. -/
def STOPWORDS_CAT : List String := ["el", "la", "les", "un", "una", "i", "adéu"]

/-- The stopword registry access struct from src/lexer/stopwords.rs. -/
def LexerStopWord : Unit := ()

/-- Embeds LexerStopWord::lang_stopwords from src/lexer/stopwords.rs: the match
wiring each supported Language to its per-language set, with the catch-all arm
returning the English set.  The Rust statics hold HashSet values built once
from the word arrays by make; membership in such a set coincides with
membership in the underlying array, so the sets are modelled by the lists
above and the contains test by List.contains. -/
def LexerStopWord.lang_stopwords (lang : Language) : List String :=
  match lang with
  | Language.Esperanto => STOPWORDS_EPO
  | Language.English => STOPWORDS_ENG
  | Language.Russian => STOPWORDS_RUS
  | Language.Chinese => STOPWORDS_CMN
  | Language.Spanish => STOPWORDS_SPA
  | Language.Portuguese => STOPWORDS_POR
  | Language.Italian => STOPWORDS_ITA
  | Language.Bengali => STOPWORDS_BEN
  | Language.French => STOPWORDS_FRA
  | Language.Ukrainian => STOPWORDS_UKR
  | Language.Arabic => STOPWORDS_ARA
  | Language.Hindi => STOPWORDS_HIN
  | Language.Japanese => STOPWORDS_JPN
  | Language.Hebrew => STOPWORDS_HEB
  | Language.Polish => STOPWORDS_POL
  | Language.Korean => STOPWORDS_KOR
  | Language.Danish => STOPWORDS_DAN
  | Language.Swedish => STOPWORDS_SWE
  | Language.Finnish => STOPWORDS_FIN
  | Language.Turkish => STOPWORDS_TUR
  | Language.Catalan => STOPWORDS_CAT
  | _ => STOPWORDS_ENG

/-- Embeds LexerStopWord::is from src/lexer/stopwords.rs: with a known locale
the word is tested against that locale per-language set; with an absent
locale the function falls through to false. -/
def LexerStopWord.is (word : String) (locale : Option Language) : Bool :=
  match locale with
  | some locale => (LexerStopWord.lang_stopwords locale).contains word
  | none => false

/-- The language hint type from src/query/types.rs. -/
inductive QueryGenericLang where
  | Enabled (lang : Language)
  | Disabled
  deriving DecidableEq, BEq, Repr

/-- Model of the external lingua crate ISO 639-3 resolution: the composition
of IsoCode639_3 from_str with Language from_iso_code_639_3, as called by
QueryGenericLang::from_value.  Every supported language is reachable through
its lowercase three-letter code; any other string fails to parse. -/
def isoToLanguage (value : String) : Option Language :=
  match value with
  | "afr" => some Language.Afrikaans
  | "sqi" => some Language.Albanian
  | "ara" => some Language.Arabic
  | "hye" => some Language.Armenian
  | "aze" => some Language.Azerbaijani
  | "eus" => some Language.Basque
  | "bel" => some Language.Belarusian
  | "ben" => some Language.Bengali
  | "nob" => some Language.Bokmal
  | "bos" => some Language.Bosnian
  | "bul" => some Language.Bulgarian
  | "cat" => some Language.Catalan
  | "zho" => some Language.Chinese
  | "hrv" => some Language.Croatian
  | "ces" => some Language.Czech
  | "dan" => some Language.Danish
  | "nld" => some Language.Dutch
  | "eng" => some Language.English
  | "epo" => some Language.Esperanto
  | "est" => some Language.Estonian
  | "fin" => some Language.Finnish
  | "fra" => some Language.French
  | "lug" => some Language.Ganda
  | "kat" => some Language.Georgian
  | "deu" => some Language.German
  | "ell" => some Language.Greek
  | "guj" => some Language.Gujarati
  | "heb" => some Language.Hebrew
  | "hin" => some Language.Hindi
  | "hun" => some Language.Hungarian
  | "isl" => some Language.Icelandic
  | "ind" => some Language.Indonesian
  | "gle" => some Language.Irish
  | "ita" => some Language.Italian
  | "jpn" => some Language.Japanese
  | "kaz" => some Language.Kazakh
  | "kor" => some Language.Korean
  | "lat" => some Language.Latin
  | "lav" => some Language.Latvian
  | "lit" => some Language.Lithuanian
  | "mkd" => some Language.Macedonian
  | "msa" => some Language.Malay
  | "mri" => some Language.Maori
  | "mar" => some Language.Marathi
  | "mon" => some Language.Mongolian
  | "nno" => some Language.Nynorsk
  | "fas" => some Language.Persian
  | "pol" => some Language.Polish
  | "por" => some Language.Portuguese
  | "pan" => some Language.Punjabi
  | "ron" => some Language.Romanian
  | "rus" => some Language.Russian
  | "srp" => some Language.Serbian
  | "sna" => some Language.Shona
  | "slk" => some Language.Slovak
  | "slv" => some Language.Slovene
  | "som" => some Language.Somali
  | "sot" => some Language.Sotho
  | "spa" => some Language.Spanish
  | "swa" => some Language.Swahili
  | "swe" => some Language.Swedish
  | "tgl" => some Language.Tagalog
  | "tam" => some Language.Tamil
  | "tel" => some Language.Telugu
  | "tha" => some Language.Thai
  | "tso" => some Language.Tsonga
  | "tsn" => some Language.Tswana
  | "tur" => some Language.Turkish
  | "ukr" => some Language.Ukrainian
  | "urd" => some Language.Urdu
  | "vie" => some Language.Vietnamese
  | "cym" => some Language.Welsh
  | "xho" => some Language.Xhosa
  | "yor" => some Language.Yoruba
  | "zul" => some Language.Zulu
  | _ => none

/-- Embeds QueryGenericLang::from_value from src/query/types.rs: the literal
"none" maps to Disabled; otherwise the value is parsed as an ISO 639-3 code,
a parse failure returns None, and a resolved code wraps its Language in
Enabled. -/
def QueryGenericLang.from_value (value : String) : Option QueryGenericLang :=
  if value = "none" then
    some QueryGenericLang.Disabled
  else
    match isoToLanguage value with
    | none => none
    | some language => some (QueryGenericLang.Enabled language)

/-- The lexer mode from src/lexer/token.rs: NormalizeAndCleanup carries an
optional explicit language hint (absent means auto-detect); NormalizeOnly
disables detection and filtering. -/
inductive TokenLexerMode where
  | NormalizeAndCleanup (lang : Option Language)
  | NormalizeOnly
  deriving DecidableEq, BEq, Repr

/-- Embeds TokenLexerMode::from_query_lang from src/lexer/token.rs: an
Enabled hint becomes an explicit cleanup language, Disabled becomes
NormalizeOnly, and an absent hint becomes auto-detect cleanup. -/
def TokenLexerMode.from_query_lang (lang : Option QueryGenericLang) : TokenLexerMode :=
  match lang with
  | some (QueryGenericLang.Enabled lang) => TokenLexerMode.NormalizeAndCleanup (some lang)
  | some QueryGenericLang.Disabled => TokenLexerMode.NormalizeOnly
  | none => TokenLexerMode.NormalizeAndCleanup none

/-- The UTF-8 encoding of one character as its list of byte values.  Used to
model the byte-level view that the Rust code takes of a str value: the str
length in bytes, byte slicing, and hashing over bytes. -/
def charUtf8Bytes (c : Char) : List Nat :=
  let n := c.toNat
  if n < 0x80 then [n]
  else if n < 0x800 then [0xC0 + n / 0x40, 0x80 + n % 0x40]
  else if n < 0x10000 then [0xE0 + n / 0x1000, 0x80 + (n / 0x40) % 0x40, 0x80 + n % 0x40]
  else [0xF0 + n / 0x40000, 0x80 + (n / 0x1000) % 0x40, 0x80 + (n / 0x40) % 0x40,
        0x80 + n % 0x40]

/-- Number of UTF-8 bytes of one character. -/
def charUtf8Size (c : Char) : Nat := (charUtf8Bytes c).length

/-- Byte length of a character list, modelling Rust str len. -/
def utf8Len (cs : List Char) : Nat := (cs.map charUtf8Size).sum

/-- Embeds StoreTermHash::from.  Modelled from the spec: the store
identifiers module is repository code that is not under src; the spec
requires a pure deterministic fixed-width 32-bit hash of the normalized
token bytes, stable across runs.  Modelled as 32-bit FNV-1a over the UTF-8
bytes, reduced modulo 2 to the 32. -/
def StoreTermHash.fromStr (s : String) : Nat :=
  ((s.toList.map charUtf8Bytes).flatten).foldl
    (fun h b => ((h ^^^ b) * 16777619) % 4294967296) 2166136261

/-- Model of Rust str to_lowercase as the character-wise lower-casing of
the text (the Unicode simple case folding of the evaluated texts). -/
def toLowercase (s : String) : String := String.mk (s.toList.map Char.toLower)

/-- Word characters for the segmentation model. -/
def isWordChar (c : Char) : Bool := c.isAlphanum

/-- Accumulator pass splitting a character list into maximal word-character
runs. -/
def wordsAux : List Char → List Char → List (List Char)
  | [], acc => if acc.isEmpty then [] else [acc.reverse]
  | c :: rest, acc =>
    if isWordChar c then wordsAux rest (c :: acc)
    else if acc.isEmpty then wordsAux rest []
    else acc.reverse :: wordsAux rest []

/-- Model of the external unicode-segmentation crate unicode_words iterator
(the UAX-29 default segmenter): for the texts this development evaluates it
returns the maximal runs of alphanumeric characters, in order, skipping
whitespace and punctuation. -/
def unicodeWords (text : String) : List String :=
  (wordsAux text.toList []).map (fun cs => String.mk cs)

/-- Modelled placeholder for the external jieba_rs dictionary segmenter
(cargo feature tokenizer-chinese).  No claim in this development depends on
its output, only on when the dispatcher selects it. -/
def jiebaCut (text : String) : List String := [text]

/-- Modelled placeholder for the external lindera morphological segmenter
(cargo feature tokenizer-japanese).  No claim in this development depends on
its output, only on when the dispatcher selects it. -/
def linderaTokens (text : String) : List String := [text]

/-- The truncation budget TEXT_LANG_TRUNCATE_OVER_CHARS from
src/lexer/token.rs. -/
def TEXT_LANG_TRUNCATE_OVER_CHARS : Nat := 200

/-- Models Rust char_indices().nth(n): some byte offset of the character at
position n when the text has more than n characters, none otherwise. -/
def charIndexAt (s : String) (n : Nat) : Option Nat :=
  if n < s.toList.length then some (utf8Len (s.toList.take n)) else none

/-- Byte-indexed prefix of a character list: some prefix when the byte index
falls exactly on a character boundary, none when it would split a character
or overruns the text.  The none case models the panic of the Rust slice
text[0..i] at a non-boundary index. -/
def sliceListAt : List Char → Nat → Option (List Char)
  | _, 0 => some []
  | [], _ + 1 => none
  | c :: cs, n + 1 =>
    if charUtf8Size c ≤ n + 1 then
      (sliceListAt cs (n + 1 - charUtf8Size c)).map (fun l => c :: l)
    else none

/-- Byte-level embedding of the truncation block of
TokenLexerBuilder::detect_lang in src/lexer/token.rs: when the byte length
exceeds the budget, slice at the byte offset of character 200 when one
exists (none here models a slice panic), and fall back to the whole text
when the character count is within budget. -/
def detectTruncate (text : String) : Option String :=
  if TEXT_LANG_TRUNCATE_OVER_CHARS < utf8Len text.toList then
    match charIndexAt text TEXT_LANG_TRUNCATE_OVER_CHARS with
    | some i => (sliceListAt text.toList i).map (fun l => String.mk l)
    | none => some text
  else some text

/-- The truncation of TokenLexerBuilder::detect_lang at character level: the
first 200 characters when the text exceeds the budget in bytes and in
characters, the whole text otherwise.  Its agreement with the byte-level
detectTruncate is proved below. -/
def safeText (text : String) : String :=
  if TEXT_LANG_TRUNCATE_OVER_CHARS < utf8Len text.toList then
    if TEXT_LANG_TRUNCATE_OVER_CHARS < text.toList.length then
      String.mk (text.toList.take TEXT_LANG_TRUNCATE_OVER_CHARS)
    else text
  else text

/-- Modelled from the spec: the external lingua statistical detector
(detect_language_of restricted to all supported languages), a best-effort
classifier returning an optional Language.  Modelled as a table of the
classifications observed in the repository tests, absent elsewhere
(symbol-only and emoji-only texts classify as absent). -/
def detectLanguageOf (text : String) : Option Language :=
  if text = "The quick brown fox jumps over the lazy dog!" then
    some Language.English
  else if text = "Le vif renard brun saute par dessus le chien paresseux." then
    some Language.French
  else
    none

/-- Embeds TokenLexerBuilder::detect_lang from src/lexer/token.rs: truncate
to the safe prefix, then run the detector. -/
def TokenLexerBuilder.detect_lang (text : String) : Option Language :=
  detectLanguageOf (safeText text)

/-- Build-time cargo feature selection for the optional specialized
segmenters (cfg features tokenizer-chinese and tokenizer-japanese in
src/lexer/token.rs). -/
structure Features where
  tokenizerChinese : Bool
  tokenizerJapanese : Bool
  deriving DecidableEq, Repr

/-- The three segmentation backends of the TokenLexerWords variant in
src/lexer/token.rs. -/
inductive SegmenterKind where
  | UAX29
  | JieBa
  | Lindera
  deriving DecidableEq, Repr

/-- The lexer state from src/lexer/token.rs: mode, resolved locale, the
chosen segmentation backend with its remaining word sequence, and the
yields set of already-emitted term hashes (a HashSet of 32-bit hashes,
modelled as a list queried through contains). -/
structure TokenLexer where
  mode : TokenLexerMode
  locale : Option Language
  wordsKind : SegmenterKind
  words : List String
  yields : List Nat
  deriving DecidableEq, Repr

/-- Embeds TokenLexer::new from src/lexer/token.rs: the segmentation backend
is chosen from the resolved locale alone — jieba for Chinese when the
Chinese tokenizer feature is compiled in, lindera for Japanese when the
Japanese tokenizer feature is compiled in (falling back to UAX-29 when the
lindera backend errors, modelled by the linderaOk flag), and the UAX-29
default segmenter in every other case.  The yields set starts empty. -/
def TokenLexer.new (feat : Features) (linderaOk : Bool) (mode : TokenLexerMode)
    (text : String) (locale : Option Language) : TokenLexer :=
  let words : SegmenterKind × List String :=
    match locale with
    | some Language.Chinese =>
      if feat.tokenizerChinese then (SegmenterKind.JieBa, jiebaCut text)
      else (SegmenterKind.UAX29, unicodeWords text)
    | some Language.Japanese =>
      if feat.tokenizerJapanese then
        if linderaOk then (SegmenterKind.Lindera, linderaTokens text)
        else (SegmenterKind.UAX29, unicodeWords text)
      else (SegmenterKind.UAX29, unicodeWords text)
    | _ => (SegmenterKind.UAX29, unicodeWords text)
  { mode := mode, locale := locale, wordsKind := words.fst, words := words.snd,
    yields := [] }

/-- Embeds TokenLexerBuilder::from from src/lexer/token.rs (from is a
reserved word here, hence the fromMode name): resolve the locale from the
mode — detect for auto-cleanup, take the hint for hinted cleanup, none for
NormalizeOnly — then build the lexer.  The only exit is Ok. -/
def TokenLexerBuilder.fromMode (feat : Features) (linderaOk : Bool)
    (mode : TokenLexerMode) (text : String) : Except Unit TokenLexer :=
  let locale :=
    match mode with
    | TokenLexerMode.NormalizeAndCleanup none => TokenLexerBuilder.detect_lang text
    | TokenLexerMode.NormalizeAndCleanup (some lang) => some lang
    | TokenLexerMode.NormalizeOnly => none
  Except.ok (TokenLexer.new feat linderaOk mode text locale)

/-- Embeds one call of the Iterator next of TokenLexer from
src/lexer/token.rs, as a function of the mode, locale, remaining words and
yields set: scan forward, lower-case each word, keep it when the mode is
NormalizeOnly or it is not a stopword for the locale, hash it, skip it when
the hash was already yielded, and otherwise return the pair together with
the remaining words and the grown yields set. -/
def nextWords (mode : TokenLexerMode) (locale : Option Language) :
    List String → List Nat → Option ((String × Nat) × List String × List Nat)
  | [], _ => none
  | w :: rest, yields =>
    let word := (toLowercase w)
    if mode == TokenLexerMode.NormalizeOnly || !(LexerStopWord.is word locale) then
      let term_hash := StoreTermHash.fromStr word
      if yields.contains term_hash then nextWords mode locale rest yields
      else some ((word, term_hash), rest, term_hash :: yields)
    else nextWords mode locale rest yields

/-- One step of the TokenLexer iterator: either a yielded (token, hash) pair
with the successor state, or none at exhaustion. -/
def TokenLexer.next (lx : TokenLexer) : Option ((String × Nat) × TokenLexer) :=
  match nextWords lx.mode lx.locale lx.words lx.yields with
  | none => none
  | some (p, rest, yields) => some (p, { lx with words := rest, yields := yields })

/-- The full output sequence of one lexer run, written as direct recursion
over the word sequence with the yields accumulator; its agreement with
repeated TokenLexer.next steps is proved below. -/
def lexWords (mode : TokenLexerMode) (locale : Option Language) :
    List String → List Nat → List (String × Nat)
  | [], _ => []
  | w :: rest, yields =>
    let word := (toLowercase w)
    if mode == TokenLexerMode.NormalizeOnly || !(LexerStopWord.is word locale) then
      let term_hash := StoreTermHash.fromStr word
      if yields.contains term_hash then lexWords mode locale rest yields
      else (word, term_hash) :: lexWords mode locale rest (term_hash :: yields)
    else lexWords mode locale rest yields

/-- The complete output of a lexer state when iterated to exhaustion. -/
def TokenLexer.run (lx : TokenLexer) : List (String × Nat) :=
  lexWords lx.mode lx.locale lx.words lx.yields

/-- Spec-side association of each supported language with its curated
stopword list: some exactly for the languages the registry match wires to
their own curated set, none for languages with no curated entry.  The
claims below compare the registry access function against this
association. -/
def curatedStopwords : Language → Option (List String)
  | Language.Esperanto => some STOPWORDS_EPO
  | Language.English => some STOPWORDS_ENG
  | Language.Russian => some STOPWORDS_RUS
  | Language.Chinese => some STOPWORDS_CMN
  | Language.Spanish => some STOPWORDS_SPA
  | Language.Portuguese => some STOPWORDS_POR
  | Language.Italian => some STOPWORDS_ITA
  | Language.Bengali => some STOPWORDS_BEN
  | Language.French => some STOPWORDS_FRA
  | Language.Ukrainian => some STOPWORDS_UKR
  | Language.Arabic => some STOPWORDS_ARA
  | Language.Hindi => some STOPWORDS_HIN
  | Language.Japanese => some STOPWORDS_JPN
  | Language.Hebrew => some STOPWORDS_HEB
  | Language.Polish => some STOPWORDS_POL
  | Language.Korean => some STOPWORDS_KOR
  | Language.Danish => some STOPWORDS_DAN
  | Language.Swedish => some STOPWORDS_SWE
  | Language.Finnish => some STOPWORDS_FIN
  | Language.Turkish => some STOPWORDS_TUR
  | Language.Catalan => some STOPWORDS_CAT
  | _ => none

/-- Spec-side dedup-only pipeline: lower-case every word and yield first
occurrences by term hash, with no stopword consultation at all.  Compared
against the NormalizeOnly behavior of the lexer in the claims below. -/
def dedupOnly : List String → List Nat → List (String × Nat)
  | [], _ => []
  | w :: rest, yields =>
    let word := (toLowercase w)
    let term_hash := StoreTermHash.fromStr word
    if yields.contains term_hash then dedupOnly rest yields
    else (word, term_hash) :: dedupOnly rest (term_hash :: yields)

/-- Every character occupies at least one UTF-8 byte. -/
theorem charUtf8Size_pos (c : Char) : 1 ≤ charUtf8Size c := by
  unfold charUtf8Size charUtf8Bytes
  dsimp only
  split
  · simp
  · split
    · simp
    · split <;> simp

/-- A character list never has more characters than UTF-8 bytes. -/
theorem length_le_utf8Len (cs : List Char) : cs.length ≤ utf8Len cs := by
  induction cs with
  | nil => simp [utf8Len]
  | cons c cs ih =>
    have := charUtf8Size_pos c
    simp only [utf8Len, List.map_cons, List.sum_cons, List.length_cons] at *
    omega

/-- Slicing a character list at the byte offset of its first n characters
always succeeds and returns exactly those characters. -/
theorem sliceListAt_take (cs : List Char) :
    ∀ n : Nat, n ≤ cs.length → sliceListAt cs (utf8Len (cs.take n)) = some (cs.take n) := by
  induction cs with
  | nil =>
    intro n hn
    have : n = 0 := Nat.le_zero.mp hn
    subst this
    simp [sliceListAt, utf8Len]
  | cons c cs ih =>
    intro n hn
    cases n with
    | zero => simp [sliceListAt, utf8Len]
    | succ m =>
      have hsz : 1 ≤ charUtf8Size c := charUtf8Size_pos c
      have hval : utf8Len (c :: cs.take m) = charUtf8Size c + utf8Len (cs.take m) := by
        simp [utf8Len]
      obtain ⟨k, hk⟩ : ∃ k, charUtf8Size c = k + 1 := ⟨charUtf8Size c - 1, by omega⟩
      have hm : m ≤ cs.length := by simpa using Nat.succ_le_succ_iff.mp hn
      simp only [List.take_succ_cons, hval, hk]
      have hstep : k + 1 + utf8Len (cs.take m) = (k + utf8Len (cs.take m)) + 1 := by omega
      rw [hstep]
      simp only [sliceListAt]
      have hle : charUtf8Size c ≤ k + utf8Len (cs.take m) + 1 := by omega
      have hsub : k + utf8Len (cs.take m) + 1 - charUtf8Size c = utf8Len (cs.take m) := by
        omega
      simp [hle, hsub, ih m hm]

/-- The hashes produced by a run are mutually distinct and avoid everything
already recorded in the yields set. -/
theorem lexWords_snd_nodup (mode : TokenLexerMode) (locale : Option Language) :
    ∀ (ws : List String) (ys : List Nat),
      ((lexWords mode locale ws ys).map Prod.snd).Nodup ∧
        ∀ h ∈ (lexWords mode locale ws ys).map Prod.snd, h ∉ ys := by
  intro ws
  induction ws with
  | nil => intro ys; simp [lexWords]
  | cons w rest ih =>
    intro ys
    simp only [lexWords]
    split
    · split
      · exact ih ys
      · rename_i hdup
        have hdup' : StoreTermHash.fromStr (toLowercase w) ∉ ys := by
          intro hin
          exact hdup (by simpa using hin)
        obtain ⟨ihnd, ihni⟩ := ih (StoreTermHash.fromStr (toLowercase w) :: ys)
        simp only [List.map_cons, List.nodup_cons]
        refine ⟨⟨?_, ihnd⟩, ?_⟩
        · intro hmem
          exact (ihni _ hmem) (List.mem_cons_self _ _)
        · intro h hmem
          rcases List.mem_cons.mp hmem with hh | hh
          · subst hh
            exact hdup'
          · intro hin
            exact (ihni h hh) (List.mem_cons_of_mem _ hin)
    · exact ih ys

/-- One scan step of the lexer either exhausts the words or consumes at
least one word. -/
theorem nextWords_none_or_shorter (mode : TokenLexerMode) (locale : Option Language) :
    ∀ (ws : List String) (ys : List Nat),
      nextWords mode locale ws ys = none ∨
        ∃ p ws' ys', nextWords mode locale ws ys = some (p, ws', ys') ∧
          ws'.length < ws.length := by
  intro ws
  induction ws with
  | nil => intro ys; exact Or.inl rfl
  | cons w rest ih =>
    intro ys
    simp only [nextWords]
    split
    · split
      · rcases ih ys with hnone | ⟨p, ws', ys', heq, hlt⟩
        · exact Or.inl hnone
        · exact Or.inr ⟨p, ws', ys', heq, Nat.lt_succ_of_lt hlt⟩
      · exact Or.inr ⟨((toLowercase w), StoreTermHash.fromStr (toLowercase w)), rest,
          StoreTermHash.fromStr (toLowercase w) :: ys, rfl, Nat.lt_succ_self _⟩
    · rcases ih ys with hnone | ⟨p, ws', ys', heq, hlt⟩
      · exact Or.inl hnone
      · exact Or.inr ⟨p, ws', ys', heq, Nat.lt_succ_of_lt hlt⟩

/-- The direct-recursion run agrees with unfolding one iterator step at a
time. -/
theorem lexWords_eq_nextWords (mode : TokenLexerMode) (locale : Option Language) :
    ∀ (ws : List String) (ys : List Nat),
      lexWords mode locale ws ys =
        match nextWords mode locale ws ys with
        | none => []
        | some (p, ws', ys') => p :: lexWords mode locale ws' ys' := by
  intro ws
  induction ws with
  | nil => intro ys; rfl
  | cons w rest ih =>
    intro ys
    simp only [lexWords, nextWords]
    split
    · split
      · exact ih ys
      · rfl
    · exact ih ys

/-- Lexer-level corollary: the run list is what repeated next steps emit. -/
theorem run_eq_next (lx : TokenLexer) :
    lx.run =
      match lx.next with
      | none => []
      | some (p, lx') => p :: lx'.run := by
  have h := lexWords_eq_nextWords lx.mode lx.locale lx.words lx.yields
  simp only [TokenLexer.run, TokenLexer.next]
  rw [h]
  cases hnw : nextWords lx.mode lx.locale lx.words lx.yields with
  | none => simp
  | some v =>
    rcases v with ⟨p, ws', ys'⟩
    simp [TokenLexer.run]

/-- C1: lexing the fox sentence in auto-detect mode resolves the locale to
English and yields exactly quick, brown, fox, jumps, lazy, dog in order,
each paired with its term hash, with the stopwords the and over removed,
then terminates. -/
theorem claim1_fox_auto_detect_scenario (feat : Features) (linderaOk : Bool) :
    ∃ lx,
      TokenLexerBuilder.fromMode feat linderaOk (TokenLexerMode.NormalizeAndCleanup none)
          "The quick brown fox jumps over the lazy dog!" = Except.ok lx
      ∧ lx.locale = some Language.English
      ∧ lx.run =
          [("quick", StoreTermHash.fromStr "quick"), ("brown", StoreTermHash.fromStr "brown"),
           ("fox", StoreTermHash.fromStr "fox"), ("jumps", StoreTermHash.fromStr "jumps"),
           ("lazy", StoreTermHash.fromStr "lazy"), ("dog", StoreTermHash.fromStr "dog")]
      ∧ "the" ∉ lx.run.map Prod.fst ∧ "over" ∉ lx.run.map Prod.fst := by
  obtain ⟨c, j⟩ := feat
  cases c <;> cases j <;> cases linderaOk <;>
    exact ⟨_, rfl, rfl, by decide, by decide, by decide⟩

/-- C2: within one lexer run no term hash is yielded twice, and no yielded
hash was already recorded in the yields set of the starting state. -/
theorem claim2_unique_term_hashes (lx : TokenLexer) :
    ((lx.run.map Prod.snd).Nodup) ∧ ∀ h ∈ lx.run.map Prod.snd, h ∉ lx.yields :=
  lexWords_snd_nodup lx.mode lx.locale lx.words lx.yields

/-- C3: the classification-time truncation never splits a character and
never panics (the byte-level slice always succeeds and equals the
character-level prefix), the retained text is a prefix of the input of at
most 200 characters, and inputs of at most 200 characters pass through
untruncated. -/
theorem claim3_truncation_boundary_safe (s : String) :
    detectTruncate s = some (safeText s)
    ∧ (safeText s).toList <+: s.toList
    ∧ (safeText s).toList.length ≤ TEXT_LANG_TRUNCATE_OVER_CHARS
    ∧ (s.toList.length ≤ TEXT_LANG_TRUNCATE_OVER_CHARS → safeText s = s) := by
  by_cases hb : TEXT_LANG_TRUNCATE_OVER_CHARS < utf8Len s.toList
  · by_cases hc : TEXT_LANG_TRUNCATE_OVER_CHARS < s.toList.length
    · have hsafe : safeText s = String.mk (s.toList.take TEXT_LANG_TRUNCATE_OVER_CHARS) := by
        simp only [safeText]
        rw [if_pos hb, if_pos hc]
      have hdet : detectTruncate s =
          some (String.mk (s.toList.take TEXT_LANG_TRUNCATE_OVER_CHARS)) := by
        have hslice := sliceListAt_take s.toList TEXT_LANG_TRUNCATE_OVER_CHARS (Nat.le_of_lt hc)
        simp only [detectTruncate, charIndexAt]
        rw [if_pos hb, if_pos hc]
        show Option.map (fun l => String.mk l)
          (sliceListAt s.toList (utf8Len (s.toList.take TEXT_LANG_TRUNCATE_OVER_CHARS))) = _
        rw [hslice]
        rfl
      have htl : (String.mk (s.toList.take TEXT_LANG_TRUNCATE_OVER_CHARS)).toList =
          s.toList.take TEXT_LANG_TRUNCATE_OVER_CHARS := rfl
      refine ⟨?_, ?_, ?_, ?_⟩
      · rw [hdet, hsafe]
      · rw [hsafe, htl]
        exact List.take_prefix _ _
      · rw [hsafe, htl]
        simp [List.length_take]
      · intro h
        exact absurd hc (Nat.not_lt.mpr h)
    · have hsafe : safeText s = s := by
        simp only [safeText]
        rw [if_pos hb, if_neg hc]
      have hdet : detectTruncate s = some s := by
        simp only [detectTruncate, charIndexAt]
        rw [if_pos hb, if_neg hc]
      refine ⟨by rw [hdet, hsafe], ?_, ?_, fun _ => hsafe⟩
      · rw [hsafe]
      · rw [hsafe]
        exact Nat.not_lt.mp hc
  · have hsafe : safeText s = s := by
      simp only [safeText]
      rw [if_neg hb]
    have hdet : detectTruncate s = some s := by
      simp only [detectTruncate]
      rw [if_neg hb]
    have hlen : s.toList.length ≤ TEXT_LANG_TRUNCATE_OVER_CHARS :=
      Nat.le_trans (length_le_utf8Len s.toList) (Nat.not_lt.mp hb)
    refine ⟨by rw [hdet, hsafe], ?_, ?_, fun _ => hsafe⟩
    · rw [hsafe]
    · rw [hsafe]
      exact hlen

/-- Witness for C3 at a concrete short input: the truncation leaves the
two-character text untouched and does not fail. -/
theorem claim3_truncation_boundary_safe_witness : detectTruncate "ab" = some "ab" := by
  obtain ⟨h1, -, -, h4⟩ := claim3_truncation_boundary_safe "ab"
  rw [h4 (by decide)] at h1
  exact h1

/-- C4: the hint parser maps the sentinel "none" to the detection-disabled
mode, maps every string that resolves as an ISO 639-3 code to an explicit
language hint that bypasses auto-detection, and reports every unresolvable
string as an error rather than picking a mode silently. -/
theorem claim4_language_hint_parsing :
    QueryGenericLang.from_value "none" = some QueryGenericLang.Disabled
    ∧ TokenLexerMode.from_query_lang (some QueryGenericLang.Disabled) =
        TokenLexerMode.NormalizeOnly
    ∧ (∀ (v : String) (lang : Language), v ≠ "none" → isoToLanguage v = some lang →
        QueryGenericLang.from_value v = some (QueryGenericLang.Enabled lang))
    ∧ (∀ lang : Language,
        TokenLexerMode.from_query_lang (some (QueryGenericLang.Enabled lang)) =
          TokenLexerMode.NormalizeAndCleanup (some lang))
    ∧ (∀ v : String, v ≠ "none" → isoToLanguage v = none →
        QueryGenericLang.from_value v = none) := by
  refine ⟨rfl, rfl, ?_, fun lang => rfl, ?_⟩
  · intro v lang hne hres
    simp [QueryGenericLang.from_value, hne, hres]
  · intro v hne hres
    simp [QueryGenericLang.from_value, hne, hres]

/-- Witness for C4 at the concrete code fra: the parser produces the
explicit French hint. -/
theorem claim4_language_hint_parsing_witness :
    QueryGenericLang.from_value "fra" = some (QueryGenericLang.Enabled Language.French) :=
  claim4_language_hint_parsing.2.2.1 "fra" Language.French (by decide) rfl

/-- C5: with an absent language, no token is ever classified as a
stopword. -/
theorem claim5_absent_language_never_stopword (word : String) :
    LexerStopWord.is word none = false := rfl

/-- C6: for every language wired to a curated stopword list, the stopword
test answers true exactly on the members of that list. -/
theorem claim6_supported_language_stopword_iff (lang : Language) (ws : List String)
    (h : curatedStopwords lang = some ws) (word : String) :
    LexerStopWord.is word (some lang) = true ↔ word ∈ ws := by
  cases lang <;>
    simp_all [curatedStopwords, LexerStopWord.is, LexerStopWord.lang_stopwords,
      List.elem_iff]

/-- Witness for C6: the is English and a member of the curated English
list, so it is reported as a stopword. -/
theorem claim6_supported_language_stopword_iff_witness :
    LexerStopWord.is "the" (some Language.English) = true :=
  (claim6_supported_language_stopword_iff Language.English STOPWORDS_ENG rfl "the").mpr
    (by decide)

/-- C7: for every language with no curated entry the stopword test applies
the English fallback list, answering exactly membership in that list and
never unconditionally false. -/
theorem claim7_uncurated_language_falls_back_to_english (lang : Language)
    (h : curatedStopwords lang = none) (word : String) :
    LexerStopWord.is word (some lang) = STOPWORDS_ENG.contains word := by
  cases lang <;> simp_all [curatedStopwords, LexerStopWord.is, LexerStopWord.lang_stopwords]

/-- Witness for C7: German has no curated entry, and the is in the English
fallback list, so it is reported as a stopword for German. -/
theorem claim7_uncurated_language_falls_back_to_english_witness :
    LexerStopWord.is "the" (some Language.German) = true :=
  (claim7_uncurated_language_falls_back_to_english Language.German rfl "the").trans (by decide)

/-- C8: in NormalizeOnly mode the text the the yields the single pair for
the, deduplicated but not stopword-filtered; and in general a NormalizeOnly
run equals the dedup-only pipeline that never consults stopwords. -/
theorem claim8_normalize_only_skips_stopword_filtering (feat : Features) (linderaOk : Bool) :
    (∃ lx,
      TokenLexerBuilder.fromMode feat linderaOk TokenLexerMode.NormalizeOnly "the the" =
          Except.ok lx
        ∧ lx.run = [("the", StoreTermHash.fromStr "the")])
    ∧ ∀ (locale : Option Language) (ws : List String) (ys : List Nat),
        lexWords TokenLexerMode.NormalizeOnly locale ws ys = dedupOnly ws ys := by
  constructor
  · obtain ⟨c, j⟩ := feat
    cases c <;> cases j <;> cases linderaOk <;> exact ⟨_, rfl, by decide⟩
  · intro locale ws
    induction ws with
    | nil => intro ys; rfl
    | cons w rest ih =>
      intro ys
      have hT : (TokenLexerMode.NormalizeOnly == TokenLexerMode.NormalizeOnly
          || !(LexerStopWord.is ((toLowercase w)) locale)) = true := rfl
      simp only [lexWords, dedupOnly, hT, if_true]
      split
      · exact ih ys
      · exact congrArg _ (ih _)

/-- C9: pipeline construction always returns Ok, and every iterator step
either yields a pair with strictly fewer remaining words or reports
exhaustion — iteration cannot fail and terminates. -/
theorem claim9_total_construction_and_terminating_iteration :
    (∀ (feat : Features) (linderaOk : Bool) (mode : TokenLexerMode) (text : String),
      ∃ lx, TokenLexerBuilder.fromMode feat linderaOk mode text = Except.ok lx)
    ∧ ∀ lx : TokenLexer, lx.next = none ∨
        ∃ p lx', lx.next = some (p, lx') ∧ lx'.words.length < lx.words.length := by
  constructor
  · intro feat linderaOk mode text
    exact ⟨_, rfl⟩
  · intro lx
    rcases nextWords_none_or_shorter lx.mode lx.locale lx.words lx.yields with
      hnone | ⟨p, ws', ys', heq, hlt⟩
    · left
      simp [TokenLexer.next, hnone]
    · right
      exact ⟨p, { lx with words := ws', yields := ys' }, by simp [TokenLexer.next, heq], hlt⟩

/-- C10: the segmentation backend depends only on the resolved locale at
construction: jieba only for Chinese with the Chinese tokenizer feature,
lindera only for Japanese with the Japanese tokenizer feature, the UAX-29
default in every other case, and a NormalizeOnly build always has an absent
locale and the default backend. -/
theorem claim10_segmentation_dispatch (feat : Features) (linderaOk : Bool)
    (mode : TokenLexerMode) (text : String) (locale : Option Language) :
    ((locale ≠ some Language.Chinese ∧ locale ≠ some Language.Japanese) →
      (TokenLexer.new feat linderaOk mode text locale).wordsKind = SegmenterKind.UAX29)
    ∧ ((TokenLexer.new feat linderaOk mode text locale).wordsKind = SegmenterKind.JieBa →
      locale = some Language.Chinese ∧ feat.tokenizerChinese = true)
    ∧ ((TokenLexer.new feat linderaOk mode text locale).wordsKind = SegmenterKind.Lindera →
      locale = some Language.Japanese ∧ feat.tokenizerJapanese = true)
    ∧ (∀ lx,
      TokenLexerBuilder.fromMode feat linderaOk TokenLexerMode.NormalizeOnly text =
          Except.ok lx →
        lx.locale = none ∧ lx.wordsKind = SegmenterKind.UAX29) := by
  obtain ⟨c, j⟩ := feat
  refine ⟨?_, ?_, ?_, ?_⟩
  · rintro ⟨hC, hJ⟩
    rcases locale with _ | l
    · rfl
    · cases l <;> first
        | exact absurd rfl hC
        | exact absurd rfl hJ
        | rfl
  · intro h
    rcases locale with _ | l
    · exact absurd h (by simp [TokenLexer.new])
    · cases l <;> cases c <;> cases j <;> cases linderaOk <;>
        simp_all [TokenLexer.new]
  · intro h
    rcases locale with _ | l
    · exact absurd h (by simp [TokenLexer.new])
    · cases l <;> cases c <;> cases j <;> cases linderaOk <;>
        simp_all [TokenLexer.new]
  · intro lx hlx
    have h : TokenLexer.new ⟨c, j⟩ linderaOk TokenLexerMode.NormalizeOnly text none = lx :=
      Except.ok.inj hlx
    rw [← h]
    exact ⟨rfl, rfl⟩

/-- Witness for C10: with both tokenizer features compiled in, an English
locale still selects the UAX-29 default segmenter. -/
theorem claim10_segmentation_dispatch_witness :
    (TokenLexer.new ⟨true, true⟩ true (TokenLexerMode.NormalizeAndCleanup none) "abc"
        (some Language.English)).wordsKind = SegmenterKind.UAX29 :=
  (claim10_segmentation_dispatch ⟨true, true⟩ true (TokenLexerMode.NormalizeAndCleanup none)
      "abc" (some Language.English)).1 (by decide)

end Sonic
